import Mathlib

/-!
Shallow embedding of `metal/contrib/slicing/synthetics/geometric_synthetics.py`.

Modelling conventions:
* Machine floats are modelled as exact rationals (`ℚ`).  All arithmetic in the
  source is elementary field arithmetic and comparisons, so the translation is
  direct; `np.sqrt` only ever feeds a `<` comparison and is eliminated by
  squaring both (nonnegative) sides.
* The three process-wide random generators (`random`, `np.random`,
  `torch`) are modelled as a state record `RngState` holding, for each
  generator, a stream of raw draws in `[0, 1)` and a cursor.  Every sampling
  primitive of the source consumes draws from the corresponding stream in the
  order the source evaluates them; seeding replaces a stream by a stream
  that is a function of the seed alone.
* Fallible code (Python exceptions: division by zero on scalars, IndexError,
  ValueError, assert) returns `Option`; the unbounded `while` retry loop in
  `create_slices` takes explicit fuel and returns `none` when the fuel runs
  out (which models non-termination, not an error of the source).
-/

attribute [local semireducible] Rat.add Rat.mul Rat.inv Rat.sub

namespace GeoSynth

/-- A 2-D point, the rows of the array `X` in the source. -/
abbrev Pt : Type := ℚ × ℚ

/-! ## Random generator state (module `random`, `np.random`, `torch`) -/

/-- The process-wide state of the three random generators.  Each generator is
a stream of raw uniform draws (rationals, intended in `[0, 1)`) plus a cursor
saying how many draws were already consumed. -/
structure RngState where
  pyStream : ℕ → ℚ
  pyPos : ℕ
  npStream : ℕ → ℚ
  npPos : ℕ
  torchStream : ℕ → ℚ
  torchPos : ℕ

/-- One raw draw of the `random` module (`random.random()`). -/
def pyDraw (g : RngState) : ℚ × RngState :=
  (g.pyStream g.pyPos, { g with pyPos := g.pyPos + 1 })

/-- One raw draw of the `np.random` generator. -/
def npDraw (g : RngState) : ℚ × RngState :=
  (g.npStream g.npPos, { g with npPos := g.npPos + 1 })

/-- `np.random.uniform(lo, hi)`: an affine rescaling of one raw draw. -/
def npUniform (lo hi : ℚ) (g : RngState) : ℚ × RngState :=
  let dg := npDraw g
  (lo + dg.1 * (hi - lo), dg.2)

/-- `np.random.uniform(lo, hi, size=c)`: `c` consecutive uniform draws. -/
def npUniformVec (lo hi : ℚ) : ℕ → RngState → List ℚ × RngState
  | 0, g => ([], g)
  | c + 1, g =>
    let vg := npUniform lo hi g
    let rg := npUniformVec lo hi c vg.2
    (vg.1 :: rg.1, rg.2)

/-- `np.random.choice(range(n))`: one index below `n`, from one raw draw. -/
def npChoiceIdx (n : ℕ) (g : RngState) : ℕ × RngState :=
  let dg := npDraw g
  (min (Rat.floor (dg.1 * (n : ℚ))).toNat (n - 1), dg.2)

/-- `np.random.choice(range(n), c)` (with replacement): `c` indices. -/
def npChoiceIdxVec (n : ℕ) : ℕ → RngState → List ℕ × RngState
  | 0, g => ([], g)
  | c + 1, g =>
    let ig := npChoiceIdx n g
    let rg := npChoiceIdxVec n c ig.2
    (ig.1 :: rg.1, rg.2)

/-- `np.random.choice(l, c, replace=False)`: draw `c` elements without
replacement, consuming one raw draw per element; raises (`none`) when more
elements are requested than available. -/
def npChoiceNoReplace {α : Type} : List α → ℕ → RngState → Option (List α × RngState)
  | _, 0, g => some ([], g)
  | l, c + 1, g =>
    let ig := npChoiceIdx l.length g
    match l[ig.1]? with
    | none => none
    | some a =>
      match npChoiceNoReplace (l.eraseIdx ig.1) c ig.2 with
      | none => none
      | some rg => some (a :: rg.1, rg.2)

/-- `np.random.randint(lo, hi)`: integer in `[lo, hi)` from one raw draw. -/
def npRandint (lo hi : ℕ) (g : RngState) : ℕ × RngState :=
  let dg := npDraw g
  (min (lo + (Rat.floor (dg.1 * ((hi - lo : ℕ) : ℚ))).toNat) (hi - 1), dg.2)

/-- A stream determined by the seed alone; the concrete mixing formula is a
modelling choice, all that matters is that it is a function of `s`. -/
def seededStream (salt : ℕ) (s : ℤ) : ℕ → ℚ :=
  fun i => mkRat ((s.natAbs + salt * i + salt) % 97 : ℕ) 97

/-- The generator state right after `random.seed(s)`, `np.random.seed(s)` and
`torch.manual_seed(s)`: all three streams and cursors depend on `s` only. -/
def seedAll (s : ℤ) : RngState :=
  { pyStream := seededStream 1 s, pyPos := 0
    npStream := seededStream 2 s, npPos := 0
    torchStream := seededStream 3 s, torchPos := 0 }

/-- Python truthiness of the `seed` argument as tested by `if seed:` in
`generate_dataset`: `None` and `0` are falsy, every other integer is truthy. -/
def truthySeed : Option ℤ → Bool
  | none => false
  | some s => decide (s ≠ 0)

/-- The seeding block of `generate_dataset`: the three generators are seeded
only when `if seed:` holds, otherwise the ambient state is left untouched. -/
def applySeed (seed : Option ℤ) (g : RngState) : RngState :=
  if truthySeed seed then seedAll (seed.getD 0) else g

/-! ## Region hierarchy -/

/-- `Rectangle(b, t, l, r)`: a rectangle defined by bottom, top, left and
right edges (constructor argument order of the source). -/
structure Rectangle where
  b : ℚ
  t : ℚ
  l : ℚ
  r : ℚ
deriving DecidableEq

/-- The `assert b < t` and `assert l < r` of `Rectangle.__init__`. -/
def Rectangle.valid (R : Rectangle) : Prop := R.b < R.t ∧ R.l < R.r

/-- `Rectangle.contains`, exactly as the source computes it:
`x > self.b and x < self.t and y > self.l and y < self.r`.
Note that the code compares the x coordinate against the bottom/top edges and
the y coordinate against the left/right edges. -/
def Rectangle.contains (R : Rectangle) (p : Pt) : Bool :=
  decide (p.1 > R.b) && decide (p.1 < R.t) && decide (p.2 > R.l) && decide (p.2 < R.r)

/-- `Rectangle.center`: `((l + r)/2, (b + t)/2)`. -/
def Rectangle.center (R : Rectangle) : Pt :=
  ((R.l + R.r) / 2, (R.b + R.t) / 2)

/-- Modelled from the spec (claim C1), not from the code: membership of
`(x, y)` strictly inside all four bounds, `l < x < r` and `b < y < t`.
Used only to compare the specified contract with `Rectangle.contains`. -/
def Rectangle.claimContains (R : Rectangle) (p : Pt) : Bool :=
  decide (R.l < p.1) && decide (p.1 < R.r) && decide (R.b < p.2) && decide (p.2 < R.t)

/-- `Ellipse(h, k, a, b)`: interior of `(x-h)^2/a^2 + (y-k)^2/b^2 = 1`.
The constructor performs no validation. -/
structure Ellipse where
  h : ℚ
  k : ℚ
  a : ℚ
  b : ℚ
deriving DecidableEq

/-- `Ellipse.contains` evaluated on plain Python scalars: the two divisions
raise `ZeroDivisionError` (modelled as `none`) when a semi-axis is zero,
otherwise the strict comparison with 1 is returned. -/
def Ellipse.contains (e : Ellipse) (p : Pt) : Option Bool :=
  if e.a = 0 ∨ e.b = 0 then none
  else some (decide ((p.1 - e.h) ^ 2 / e.a ^ 2 + (p.2 - e.k) ^ 2 / e.b ^ 2 < 1))

/-- `Ellipse.contains` as exercised by the generation pipeline, where all
operands are numpy float64 values: division by zero yields `inf` (or `nan`
when the numerator is also zero), and both make the `< 1` test false; with
nonzero semi-axes the test is the exact rational comparison. -/
def Ellipse.containsNp (e : Ellipse) (p : Pt) : Bool :=
  if e.a = 0 ∨ e.b = 0 then false
  else decide ((p.1 - e.h) ^ 2 / e.a ^ 2 + (p.2 - e.k) ^ 2 / e.b ^ 2 < 1)

/-- `Ellipse.center`: `(h, k)`. -/
def Ellipse.center (e : Ellipse) : Pt := (e.h, e.k)

/-- `Circle(h, k, r)`: sets `a = b = r` on the underlying ellipse, with no
validation of `r`. -/
def Circle (h k r : ℚ) : Ellipse := ⟨h, k, r, r⟩

/-! ## Building blocks -/

/-- `flip(y)`: raises (`none`) on an abstain vote `0`, otherwise swaps the
two class labels (`1` if `y == 2` else `2`). -/
def flip : ℕ → Option ℕ
  | 0 => none
  | y => some (if y = 2 then 1 else 2)

/-- Python list indexing `l[i]` on a list of floats: nonnegative indices must
be below the length, negative indices wrap once from the end, anything else
raises IndexError (`none`). -/
def pyIndex (l : List ℚ) (i : ℤ) : Option ℚ :=
  if 0 ≤ i then
    (if i < (l.length : ℤ) then l[i.toNat]? else none)
  else
    (if -(l.length : ℤ) ≤ i then l[((l.length : ℤ) + i).toNat]? else none)

/-- Least `s` with `n ≤ s * s`, i.e. `np.ceil(np.sqrt(n))` as an integer. -/
def ceilSqrtNat (n : ℕ) : ℕ :=
  (((List.range (n + 1)).find? (fun s => decide (n ≤ s * s)))).getD n

/-- `np.linspace(lo, hi, num)`: `num` evenly spaced samples with both
endpoints included. -/
def linspace (lo hi : ℚ) (num : ℕ) : List ℚ :=
  if num = 0 then []
  else if num = 1 then [lo]
  else (List.range num).map (fun i => lo + (hi - lo) * (i : ℚ) / ((num : ℚ) - 1))

/-- `create_points(rect, n, random)`: uniform points in the canvas (all x
coordinates drawn first, then all y coordinates, as numpy does), or the
first `n` points of a `ceilSqrtNat n`-per-axis grid with x as the outer
loop. -/
def create_points (rect : Rectangle) (n : ℕ) (rnd : Bool) (g : RngState) :
    List Pt × RngState :=
  if rnd then
    let xg := npUniformVec rect.l rect.r n g
    let yg := npUniformVec rect.b rect.t n xg.2
    (xg.1.zip yg.1, yg.2)
  else
    let s := ceilSqrtNat n
    (((linspace rect.l rect.r s).flatMap
        (fun x => (linspace rect.b rect.t s).map (fun y => (x, y)))).take n, g)

/-- `assign_y(X, Y, region, label)`: sets `Y[i] = label` for every `i` with
`X[i]` in the region.  The source iterates over the indices of `X`; the
calls of the pipeline always have `len(X) == len(Y)`. -/
def assign_y : List Pt → List ℕ → Ellipse → ℕ → List ℕ
  | [], ys, _, _ => ys
  | _ :: _, [], _, _ => []
  | x :: xs, y :: ys, region, label =>
    (if region.containsNp x then label else y) :: assign_y xs ys region label

/-- The `for i in range(num_clusters)` loop of `create_labels`: pick a random
existing point as center, sample both semi-axes, record the ellipse and
overwrite the label of every contained point with `1`. -/
def labelClustersLoop (X : List Pt) (min_a max_a : ℚ) :
    ℕ → List ℕ → List Ellipse → RngState → Option (List ℕ × List Ellipse × RngState)
  | 0, Y, regions, g => some (Y, regions, g)
  | c + 1, Y, regions, g =>
    let ig := npChoiceIdx X.length g
    match X[ig.1]? with
    | none => none
    | some center =>
      let ag := npUniform min_a max_a ig.2
      let bg := npUniform min_a max_a ag.2
      let region : Ellipse := ⟨center.1, center.2, ag.1, bg.1⟩
      labelClustersLoop X min_a max_a c (assign_y X Y region 1) (regions ++ [region]) bg.2

/-- `create_labels(X, k, num_clusters, min_a, max_a)`: every label starts at
`k`, then `num_clusters` random ellipses each overwrite the labels of their
member points with `1`. -/
def create_labels (X : List Pt) (k : ℕ) (num_clusters : ℕ) (min_a max_a : ℚ)
    (g : RngState) : Option (List ℕ × List Ellipse × RngState) :=
  labelClustersLoop X min_a max_a num_clusters (List.replicate X.length k) [] g

/-- The observable result of `create_labels`: the label array and the list
of cluster regions (the generator state is internal). -/
def create_labelsOut (X : List Pt) (k : ℕ) (num_clusters : ℕ) (min_a max_a : ℚ)
    (g : RngState) : Option (List ℕ × List Ellipse) :=
  (create_labels X k num_clusters min_a max_a g).map (fun r => (r.1, r.2.1))

/-- The vote of one labeling function on one point, the body of the
`assign_l` loop.  For a point inside the region the source evaluates
`random.random() < props[y - 1]` (one draw, then Python indexing which may
raise) and, when it fires, `random.random() < accs[y - 1]` (a second draw
and index), voting the true label or its flip; a point outside the region
abstains without consuming draws. -/
def assign_lStep (region : Ellipse) (props accs : List ℚ) (x : Pt) (y : ℕ)
    (g : RngState) : Option (ℕ × RngState) :=
  if region.containsNp x then
    match pyIndex props ((y : ℤ) - 1) with
    | none => none
    | some p =>
      if (pyDraw g).1 < p then
        match pyIndex accs ((y : ℤ) - 1) with
        | none => none
        | some acc =>
          if (pyDraw (pyDraw g).2).1 < acc then some (y, (pyDraw (pyDraw g).2).2)
          else
            match flip y with
            | none => none
            | some fy => some (fy, (pyDraw (pyDraw g).2).2)
      else some (0, (pyDraw g).2)
  else some (0, g)

/-- The per-point loop of `assign_l`: one `assign_lStep` per `(point, label)`
pair, in order. -/
def assign_lLoop (region : Ellipse) (props accs : List ℚ) :
    List (Pt × ℕ) → RngState → Option (List ℕ × RngState)
  | [], g => some ([], g)
  | (x, y) :: rest, g =>
    match assign_lStep region props accs x y g with
    | none => none
    | some vg =>
      match assign_lLoop region props accs rest vg.2 with
      | none => none
      | some tg => some (vg.1 :: tg.1, tg.2)

/-- `assign_l(X, Y, region, props, accs)`: the vote column of one labeling
function; points outside the region abstain with vote `0`. -/
def assign_l (X : List Pt) (Y : List ℕ) (region : Ellipse) (props accs : List ℚ)
    (g : RngState) : Option (List ℕ × RngState) :=
  assign_lLoop region props accs (X.zip Y) g

/-- The unipolar masking `l[l != polarity] = 0` of `create_lfs`. -/
def unipolarMask (polarity : ℕ) (l : List ℕ) : List ℕ :=
  l.map (fun v => if v ≠ polarity then 0 else v)

/-- Transpose of a rectangular `m × n` integer matrix stored as a list of `m`
rows of length `n` (the numpy `.transpose()` on the stacked LF columns). -/
def matTranspose (cols : List (List ℕ)) (n : ℕ) : List (List ℕ) :=
  (List.range n).map (fun i => cols.map (fun col => col.getD i 0))

/-- Entry `(i, j)` of a row-major matrix, defaulting to `0` out of range. -/
def matEntry (L : List (List ℕ)) (i j : ℕ) : ℕ :=
  (L.getD i []).getD j 0

/-- The `for j in range(m)` loop of `create_lfs`.  Note the source line
`props = np.random.uniform(min_acc, max_acc, d)`: the coverage vector is
drawn from the accuracy range (the coverage range parameters are never
read), and its length is `d = 2`, the point dimension.  In unipolar mode the
source hardcodes `k = 2` and draws the polarity from `randint(1, 3)`. -/
def lfsLoop (X : List Pt) (Y : List ℕ) (unipolar : Bool)
    (min_r max_r min_acc max_acc : ℚ) :
    ℕ → List (List ℕ) → List Ellipse → List (List ℚ) → List (List ℚ) → RngState →
      Option (List (List ℕ) × List Ellipse × List (List ℚ) × List (List ℚ) × RngState)
  | 0, cols, regions, accsH, propsH, g => some (cols, regions, accsH, propsH, g)
  | c + 1, cols, regions, accsH, propsH, g =>
    let ig := npChoiceIdx X.length g
    match X[ig.1]? with
    | none => none
    | some center =>
      let rg := npUniform min_r max_r ig.2
      let region := Circle center.1 center.2 rg.1
      let pg := npUniformVec min_acc max_acc 2 rg.2
      let ag := npUniformVec min_acc max_acc 2 pg.2
      match assign_l X Y region pg.1 ag.1 ag.2 with
      | none => none
      | some lg =>
        let step : List ℕ × RngState :=
          if unipolar then
            let polg := npRandint 1 3 lg.2
            (unipolarMask polg.1 lg.1, polg.2)
          else lg
        lfsLoop X Y unipolar min_r max_r min_acc max_acc c
          (cols ++ [step.1]) (regions ++ [region]) (accsH ++ [ag.1]) (propsH ++ [pg.1]) step.2

/-- `create_lfs`: accumulates one vote column and one circular region per LF
and returns the transposed `n × m` vote matrix together with the bookkeeping
lists.  The parameters `min_prop` and `max_prop` are accepted but never used
by the source.  The trailing shape assertion fails exactly when `m = 0`
(then `np.array([])` is one dimensional and has no second axis). -/
def create_lfs (X : List Pt) (Y : List ℕ) (m : ℕ) (unipolar : Bool)
    (min_r max_r min_acc max_acc min_prop max_prop : ℚ) (g : RngState) :
    Option (List (List ℕ) × List Ellipse × List (List ℚ) × List (List ℚ) × RngState) :=
  match lfsLoop X Y unipolar min_r max_r min_acc max_acc m [] [] [] [] g with
  | none => none
  | some r =>
    match r.1 with
    | [] => none
    | _ => some (matTranspose r.1 X.length, r.2.1, r.2.2.1, r.2.2.2.1, r.2.2.2.2)

/-- The observable result of `create_lfs` used downstream: the `n × m` vote
matrix and the LF regions. -/
def create_lfsOut (X : List Pt) (Y : List ℕ) (m : ℕ) (unipolar : Bool)
    (min_r max_r min_acc max_acc min_prop max_prop : ℚ) (g : RngState) :
    Option (List (List ℕ) × List Ellipse) :=
  (create_lfs X Y m unipolar min_r max_r min_acc max_acc min_prop max_prop g).map
    (fun r => (r.1, r.2.1))

/-- The coverage vectors (`props_hist`) sampled by `create_lfs`. -/
def create_lfsProps (X : List Pt) (Y : List ℕ) (m : ℕ) (unipolar : Bool)
    (min_r max_r min_acc max_acc min_prop max_prop : ℚ) (g : RngState) :
    Option (List (List ℚ)) :=
  (create_lfs X Y m unipolar min_r max_r min_acc max_acc min_prop max_prop g).map
    (fun r => r.2.2.2.1)

/-! ## Conflict ranking -/

/-- Stable descending insertion of a scored point: placed before the first
element whose score it reaches. -/
def insertDesc (a : ℚ × Pt) : List (ℚ × Pt) → List (ℚ × Pt)
  | [] => [a]
  | b :: t => if b.1 ≤ a.1 then a :: b :: t else b :: insertDesc a t

/-- Stable descending sort by score, the behaviour of
`sorted(…, key=lambda x: x[0], reverse=True)`: scores descending, elements
with equal scores in their original order. -/
def sortDesc : List (ℚ × Pt) → List (ℚ × Pt)
  | [] => []
  | a :: t => insertDesc a (sortDesc t)

/-- `conflict_func(votes)`: asserts that no abstain is present, then returns
`(num_votes - |count(1) - count(2)|) / 2 + 0.01 * num_votes`. -/
def conflict_func (votes : List ℕ) : Option ℚ :=
  if votes.contains 0 then none
  else
    some ((((votes.length : ℚ) - |((votes.count 1 : ℚ)) - ((votes.count 2 : ℚ))|) / 2)
      + (1 / 100) * (votes.length : ℚ))

/-- `rank_by_conflict(X, L)`: score every point over its nonzero votes and
sort descending by score.  Reading row `i` of `L` raises IndexError when `L`
has fewer rows than `X` has points. -/
def rank_by_conflict (X : List Pt) (L : List (List ℕ)) : Option (List (ℚ × Pt)) :=
  if X.length ≤ L.length then
    match (X.zip L).mapM
        (fun xv => (conflict_func (xv.2.filter (fun v => v != 0))).map (fun s => (s, xv.1))) with
    | none => none
    | some scored => some (sortDesc scored)
  else none

/-- The comparison `dist(x, c) < t` of `select_conflicted_points`, with the
square root eliminated by squaring both nonnegative sides. -/
def distLt (x c : Pt) (t : ℚ) : Bool :=
  decide (0 < t) && decide ((x.1 - c.1) ^ 2 + (x.2 - c.2) ^ 2 < t ^ 2)

/-- The greedy `while len(centers) < num_slices` loop of
`select_conflicted_points`: walk the ranked list, skipping candidates within
`min_dist` of an already chosen center.  Each iteration either chooses a
center or advances the cursor, so the fuel passed by the caller always
exceeds the number of iterations the source would perform; running off the
end of the ranked list is the IndexError of the source. -/
def conflictSelectLoop (ranked : List (ℚ × Pt)) (num_slices : ℕ) (min_dist : ℚ) :
    ℕ → List Pt → ℕ → Option (List Pt)
  | 0, _, _ => none
  | fuel + 1, centers, i =>
    if centers.length < num_slices then
      match ranked[i]? with
      | none => none
      | some sx =>
        if centers.any (fun c => distLt sx.2 c min_dist) then
          conflictSelectLoop ranked num_slices min_dist fuel centers (i + 1)
        else
          conflictSelectLoop ranked num_slices min_dist fuel (centers ++ [sx.2]) i
    else some centers

/-- `select_conflicted_points(X, L, num_slices, min_dist)`. -/
def select_conflicted_points (X : List Pt) (L : List (List ℕ)) (num_slices : ℕ)
    (min_dist : ℚ) : Option (List Pt) :=
  match rank_by_conflict X L with
  | none => none
  | some ranked =>
    conflictSelectLoop ranked num_slices min_dist (ranked.length + num_slices + 1) [] 0

/-- `select_maxmin_points(X, L, num_slices)`: asserts `num_slices == 2` and
returns the highest and lowest ranked points. -/
def select_maxmin_points (X : List Pt) (L : List (List ℕ)) (num_slices : ℕ) :
    Option (List Pt) :=
  if num_slices = 2 then
    match rank_by_conflict X L with
    | none => none
    | some ranked =>
      match ranked[0]?, ranked.getLast? with
      | some s0, some sl => some [s0.2, sl.2]
      | _, _ => none
  else none

/-! ## Slice assignment -/

/-- The `slice_source` strategy strings accepted by `create_slices`; any
other string raises, which the closed enumeration models. -/
inductive SliceSource
  | lfs
  | random
  | conflicts
  | maxmin
deriving DecidableEq

/-- One computation of `centers` at the top of the `while` loop of
`create_slices`, per strategy. -/
def sliceCenters (src : SliceSource) (X : List Pt) (L : List (List ℕ))
    (lf_regions : Option (List Ellipse)) (num_slices : ℕ) (max_a : ℚ)
    (g : RngState) : Option (List Pt × RngState) :=
  match src with
  | SliceSource.random =>
    let ig := npChoiceIdxVec X.length num_slices g
    match ig.1.mapM (fun i => X[i]?) with
    | none => none
    | some centers => some (centers, ig.2)
  | SliceSource.lfs =>
    match lf_regions with
    | none => none
    | some regs =>
      match npChoiceNoReplace regs num_slices g with
      | none => none
      | some cg => some (cg.1.map Ellipse.center, cg.2)
  | SliceSource.conflicts =>
    match select_conflicted_points X L num_slices (max_a * (5 / 4)) with
    | none => none
    | some centers => some (centers, g)
  | SliceSource.maxmin =>
    match select_maxmin_points X L num_slices with
    | none => none
    | some centers => some (centers, g)

/-- The `for i in range(num_slices)` body of `create_slices`: around the
`i`-th center sample both semi-axes, append the ellipse to `regions` and
overwrite the slice id of every contained point with `i + 1`. -/
def slicesFor (X : List Pt) (min_a max_a : ℚ) (centers : List Pt) :
    ℕ → ℕ → List ℕ → List Ellipse → RngState →
      Option (List ℕ × List Ellipse × RngState)
  | _, 0, Z, regions, g => some (Z, regions, g)
  | i, c + 1, Z, regions, g =>
    match centers[i]? with
    | none => none
    | some ctr =>
      let ag := npUniform min_a max_a g
      let bg := npUniform min_a max_a ag.2
      let region : Ellipse := ⟨ctr.1, ctr.2, ag.1, bg.1⟩
      slicesFor X min_a max_a centers (i + 1) c
        (assign_y X Z region (i + 1)) (regions ++ [region]) bg.2

/-- The set membership of the distinct values of `Z` with their counts:
`Counter(Z).values()`. -/
def counterValues (Z : List ℕ) : List ℕ :=
  Z.dedup.map (fun v => Z.count v)

/-- The acceptance test of `create_slices`, exactly as the source computes
it: `len(set(Z)) == num_slices + 1` and every count of `Counter(Z)` —
including the count of the background value `0` — strictly exceeds
`min_slice_size`. -/
def satisfiedCheck (Z : List ℕ) (num_slices min_slice_size : ℕ) : Bool :=
  decide (Z.dedup.length = num_slices + 1)
    && (counterValues Z).all (fun c => decide (min_slice_size < c))

/-- Modelled from the spec (claim C2), not from the code: the claimed
acceptance predicate — `num_slices + 1` distinct values, background `0` and
every slice id `1..num_slices` present, and every nonzero slice with at
least `min_slice_size` members. -/
def claimAcceptZ (Z : List ℕ) (num_slices min_slice_size : ℕ) : Bool :=
  decide (Z.dedup.length = num_slices + 1)
    && (List.range (num_slices + 1)).all (fun s => Z.contains s)
    && (List.range num_slices).all (fun s => decide (min_slice_size ≤ Z.count (s + 1)))

/-- The `while not satisfied` retry loop of `create_slices`.  On rejection the
slice ids are reset to zero but the accumulated `regions` list is kept — the
source never clears it.  The fuel bounds the number of attempts; `none`
models the loop running forever (or an exception inside an attempt). -/
def create_slicesLoop (X : List Pt) (L : List (List ℕ)) (src : SliceSource)
    (lf_regions : Option (List Ellipse)) (num_slices min_slice_size : ℕ)
    (min_a max_a : ℚ) :
    ℕ → List ℕ → List Ellipse → RngState → Option (List ℕ × List Ellipse × RngState)
  | 0, _, _, _ => none
  | fuel + 1, Z, regions, g =>
    match sliceCenters src X L lf_regions num_slices max_a g with
    | none => none
    | some cg =>
      match slicesFor X min_a max_a cg.1 0 num_slices Z regions cg.2 with
      | none => none
      | some r =>
        if satisfiedCheck r.1 num_slices min_slice_size then some r
        else
          create_slicesLoop X L src lf_regions num_slices min_slice_size min_a max_a
            fuel (List.replicate X.length 0) r.2.1 r.2.2

/-- `create_slices(X, Y, L, slice_source, lf_regions, num_slices,
min_slice_size, min_a, max_a)`.  The `Y` argument is accepted and never used,
as in the source. -/
def create_slices (X : List Pt) (Y : List ℕ) (L : List (List ℕ)) (src : SliceSource)
    (lf_regions : Option (List Ellipse)) (num_slices min_slice_size : ℕ)
    (min_a max_a : ℚ) (fuel : ℕ) (g : RngState) :
    Option (List ℕ × List Ellipse × RngState) :=
  create_slicesLoop X L src lf_regions num_slices min_slice_size min_a max_a
    fuel (List.replicate X.length 0) [] g

/-- The observable result of `create_slices`: the slice id array and the
stored regions (the generator state is internal). -/
def create_slicesOut (X : List Pt) (Y : List ℕ) (L : List (List ℕ)) (src : SliceSource)
    (lf_regions : Option (List Ellipse)) (num_slices min_slice_size : ℕ)
    (min_a max_a : ℚ) (fuel : ℕ) (g : RngState) : Option (List ℕ × List Ellipse) :=
  (create_slices X Y L src lf_regions num_slices min_slice_size min_a max_a fuel g).map
    (fun r => (r.1, r.2.1))

/-! ## Top-level generation -/

/-- The `L_kwargs` configuration dict of `generate_dataset`. -/
structure LKwargs where
  min_r : ℚ
  max_r : ℚ
  min_acc : ℚ
  max_acc : ℚ
  min_prop : ℚ
  max_prop : ℚ

/-- The `Y_kwargs` configuration dict of `generate_dataset`. -/
structure YKwargs where
  num_clusters : ℕ
  min_a : ℚ
  max_a : ℚ

/-- The `Z_kwargs` configuration dict of `generate_dataset` (with the
`min_slice_size` default surfaced as an explicit field). -/
structure ZKwargs where
  num_slices : ℕ
  min_slice_size : ℕ
  min_a : ℚ
  max_a : ℚ

/-- The slice-to-LF back-resolution of `generate_dataset`: for every slice
region, the index of the first LF region with exactly equal center
(`list.index(True)` raises, hence `none`, when no LF center matches). -/
def computeTargeting (slice_regions lf_regions : List Ellipse) : Option (List ℕ) :=
  slice_regions.mapM
    (fun region => (lf_regions.map (fun lf => decide (lf.center = region.center))).findIdx? (fun fl => fl))

/-- `generate_dataset`: seeds the three generators when `if seed:` holds,
builds the canvas `Rectangle(0, 10, 0, 10)`, then points, labels, LFs and
slices in order, and resolves slices back to LF indices only for the `lfs`
strategy.  The returned tuple is `(L, X, Y, Z, lfs_targeting_regions)`; the
plotting branch and the sparse/tensor container conversions carry no data
content and are omitted. -/
def generate_dataset (k m n : ℕ) (Lk : LKwargs) (Xrandom : Bool) (Yk : YKwargs)
    (Zk : ZKwargs) (unipolar : Bool) (src : SliceSource) (seed : Option ℤ)
    (fuel : ℕ) (g0 : RngState) :
    Option (List (List ℕ) × List Pt × List ℕ × List ℕ × Option (List ℕ)) :=
  let g := applySeed seed g0
  let canvas : Rectangle := ⟨0, 10, 0, 10⟩
  let Xg := create_points canvas n Xrandom g
  match create_labels Xg.1 k Yk.num_clusters Yk.min_a Yk.max_a Xg.2 with
  | none => none
  | some (Y, _, g2) =>
    match create_lfs Xg.1 Y m unipolar Lk.min_r Lk.max_r Lk.min_acc Lk.max_acc
        Lk.min_prop Lk.max_prop g2 with
    | none => none
    | some (L, lf_regions, _, _, g3) =>
      match create_slices Xg.1 Y L src (some lf_regions) Zk.num_slices
          Zk.min_slice_size Zk.min_a Zk.max_a fuel g3 with
      | none => none
      | some (Z, slice_regions, _) =>
        match src with
        | SliceSource.lfs =>
          match computeTargeting slice_regions lf_regions with
          | none => none
          | some targeting => some (L, Xg.1, Y, Z, some targeting)
        | _ => some (L, Xg.1, Y, Z, none)

/-- The vote matrix, label array and slice array components of a
`generate_dataset` result — the three outputs the determinism property of
the spec is about. -/
def generate_datasetLYZ (k m n : ℕ) (Lk : LKwargs) (Xrandom : Bool) (Yk : YKwargs)
    (Zk : ZKwargs) (unipolar : Bool) (src : SliceSource) (seed : Option ℤ)
    (fuel : ℕ) (g0 : RngState) : Option (List (List ℕ) × List ℕ × List ℕ) :=
  (generate_dataset k m n Lk Xrandom Yk Zk unipolar src seed fuel g0).map
    (fun r => (r.1, r.2.2.1, r.2.2.2.1))

/-- A generator state whose three streams are constant: convenient ambient
states for concrete executions. -/
def constState (q : ℚ) : RngState :=
  { pyStream := fun _ => q, pyPos := 0
    npStream := fun _ => q, npPos := 0
    torchStream := fun _ => q, torchPos := 0 }

/-! ## General lemmas about the embedding -/

/-- Whatever the retry loop of `create_slices` returns passed the acceptance
test of its final attempt. -/
theorem create_slicesLoop_satisfied (X : List Pt) (L : List (List ℕ))
    (src : SliceSource) (lfr : Option (List Ellipse)) (ns mss : ℕ)
    (mina maxa : ℚ) :
    ∀ (fuel : ℕ) (Z : List ℕ) (regions : List Ellipse) (g : RngState)
      (out : List ℕ × List Ellipse × RngState),
      create_slicesLoop X L src lfr ns mss mina maxa fuel Z regions g = some out →
      satisfiedCheck out.1 ns mss = true := by
  intro fuel
  induction fuel with
  | zero =>
    intro Z regions g out h
    exact absurd h (by simp [create_slicesLoop])
  | succ f ih =>
    intro Z regions g out h
    rw [create_slicesLoop] at h
    split at h
    next => exact absurd h (by simp)
    next cg =>
      split at h
      next => exact absurd h (by simp)
      next r =>
        split at h
        next hs => cases h; exact hs
        next => exact ih _ _ _ _ h

/-- The length of `assign_y X Y region label` when the inputs are aligned,
as in every call of the pipeline. -/
theorem assign_y_length (region : Ellipse) (label : ℕ) :
    ∀ (X : List Pt) (Y : List ℕ), X.length = Y.length →
      (assign_y X Y region label).length = Y.length := by
  intro X
  induction X with
  | nil => intro Y _; rfl
  | cons x xs ih =>
    intro Y h
    cases Y with
    | nil => simp at h
    | cons y ys =>
      simp only [assign_y, List.length_cons]
      rw [ih ys (by simpa using h)]

/-- Pointwise description of `assign_y`: a contained point gets the new
label, every other point keeps its old one. -/
theorem assign_y_getD (region : Ellipse) (label : ℕ) :
    ∀ (X : List Pt) (Y : List ℕ) (i : ℕ), X.length = Y.length → i < X.length →
      (assign_y X Y region label).getD i 0
        = if region.containsNp (X.getD i (0, 0)) then label else Y.getD i 0 := by
  intro X
  induction X with
  | nil => intro Y i _ hi; simp at hi
  | cons x xs ih =>
    intro Y i h hi
    cases Y with
    | nil => simp at h
    | cons y ys =>
      cases i with
      | zero => simp [assign_y]
      | succ j =>
        simp only [assign_y, List.getD_cons_succ]
        exact ih ys j (by simpa using h) (by simpa using hi)

/-- Invariant of the cluster loop of `create_labels`: the running label
array holds `1` exactly at the points contained in some region recorded so
far, and the background value `k` elsewhere. -/
theorem labelClustersLoop_inv (X : List Pt) (k : ℕ) (mina maxa : ℚ) :
    ∀ (cnt : ℕ) (Y : List ℕ) (regions : List Ellipse) (g : RngState)
      (out : List ℕ × List Ellipse × RngState),
      labelClustersLoop X mina maxa cnt Y regions g = some out →
      Y.length = X.length →
      (∀ i, i < X.length →
        Y.getD i 0 = if regions.any (fun e => e.containsNp (X.getD i (0, 0))) then 1 else k) →
      out.1.length = X.length ∧
      ∀ i, i < X.length →
        out.1.getD i 0
          = if out.2.1.any (fun e => e.containsNp (X.getD i (0, 0))) then 1 else k := by
  intro cnt
  induction cnt with
  | zero =>
    intro Y regions g out h hlen hinv
    cases h
    exact ⟨hlen, hinv⟩
  | succ c ih =>
    intro Y regions g out h hlen hinv
    have step : ∀ (R : Ellipse) (i : ℕ), i < X.length →
        (assign_y X Y R 1).getD i 0
          = if (regions ++ [R]).any (fun e => e.containsNp (X.getD i (0, 0))) then 1 else k := by
      intro R i hi
      rw [assign_y_getD R 1 X Y i hlen.symm hi, hinv i hi, List.any_append]
      cases h1 : R.containsNp (X.getD i (0, 0)) with
      | true =>
        rw [if_pos rfl,
          if_pos (by simp only [List.any_cons, List.any_nil, h1, Bool.or_false, Bool.or_true])]
      | false =>
        rw [if_neg Bool.false_ne_true,
          show ((regions.any fun e => e.containsNp (X.getD i (0, 0)))
                || ([R].any fun e => e.containsNp (X.getD i (0, 0))))
              = (regions.any fun e => e.containsNp (X.getD i (0, 0))) from by
            simp only [List.any_cons, List.any_nil, h1, Bool.or_false]]
    have hlen2 : ∀ (R : Ellipse), (assign_y X Y R 1).length = X.length := by
      intro R
      rw [assign_y_length R 1 X Y hlen.symm, hlen]
    rw [labelClustersLoop] at h
    split at h
    next => exact absurd h (by simp)
    next center _ =>
      exact ih _ _ _ _ h (hlen2 _) (step _)

/-- `flip` only ever returns the two class labels. -/
theorem flip_mem (y fy : ℕ) (h : flip y = some fy) : fy = 1 ∨ fy = 2 := by
  cases y with
  | zero => exact absurd h (by simp [flip])
  | succ n =>
    rw [show flip (n + 1) = some (if n + 1 = 2 then 1 else 2) from rfl] at h
    injection h with h2
    by_cases h3 : n + 1 = 2
    · rw [if_pos h3] at h2; exact Or.inl h2.symm
    · rw [if_neg h3] at h2; exact Or.inr h2.symm

/-- When Python indexing `props[y - 1]` succeeds on a length-2 list — as the
coverage and accuracy vectors of `create_lfs` always are — the label `y` can
only be `0` (wrapping to the last entry), `1` or `2`. -/
theorem pyIndex_some_y_le (l : List ℚ) (hl : l.length = 2) (y : ℕ) (p : ℚ)
    (h : pyIndex l ((y : ℤ) - 1) = some p) : y = 0 ∨ y = 1 ∨ y = 2 := by
  unfold pyIndex at h
  rw [hl] at h
  split at h
  next h0 =>
    split at h
    next hlt => omega
    next => exact absurd h (by simp)
  next h0 => omega

/-- First components of the zipped point/label pairs fed to `assign_l`. -/
theorem zip_getD_fst :
    ∀ (X : List Pt) (Y : List ℕ) (i : ℕ), i < (X.zip Y).length →
      ((X.zip Y).getD i ((0, 0), 0)).1 = X.getD i (0, 0) := by
  intro X
  induction X with
  | nil => intro Y i hi; simp at hi
  | cons x xs ih =>
    intro Y i hi
    cases Y with
    | nil => simp at hi
    | cons y ys =>
      cases i with
      | zero => rfl
      | succ j =>
        rw [List.zip_cons_cons, List.getD_cons_succ, List.getD_cons_succ]
        rw [List.zip_cons_cons, List.length_cons] at hi
        exact ih ys j (by omega)

/-- `npUniformVec` returns as many draws as requested. -/
theorem npUniformVec_length (lo hi : ℚ) :
    ∀ (c : ℕ) (g : RngState), (npUniformVec lo hi c g).1.length = c := by
  intro c
  induction c with
  | zero => intro g; rfl
  | succ n ih => intro g; simp only [npUniformVec, List.length_cons, ih]

/-- Specification of one `assign_l` step on success: the vote is an abstain
or one of the two class labels, and a point outside the region abstains. -/
theorem assign_lStep_spec (region : Ellipse) (props accs : List ℚ)
    (hp : props.length = 2) (x : Pt) (y : ℕ) (g : RngState) (vg : ℕ × RngState)
    (h : assign_lStep region props accs x y g = some vg) :
    (vg.1 = 0 ∨ vg.1 = 1 ∨ vg.1 = 2) ∧
    (region.containsNp x = false → vg.1 = 0) := by
  unfold assign_lStep at h
  split at h
  next hc =>
    have hc2 : region.containsNp x = false → False := by
      intro hf; rw [hf] at hc; exact absurd hc (by simp)
    split at h
    next => exact absurd h (by simp)
    next p hpi =>
      split at h
      next =>
        split at h
        next => exact absurd h (by simp)
        next acc _ =>
          split at h
          next =>
            injection h with h2
            cases h2
            exact ⟨pyIndex_some_y_le props hp y p hpi, fun hf => (hc2 hf).elim⟩
          next =>
            split at h
            next => exact absurd h (by simp)
            next fy hfy =>
              injection h with h2
              cases h2
              refine ⟨?_, fun hf => (hc2 hf).elim⟩
              rcases flip_mem y fy hfy with h1 | h2
              · exact Or.inr (Or.inl h1)
              · exact Or.inr (Or.inr h2)
      next =>
        injection h with h2
        cases h2
        exact ⟨Or.inl rfl, fun _ => rfl⟩
  next =>
    injection h with h2
    cases h2
    exact ⟨Or.inl rfl, fun _ => rfl⟩

/-- Entrywise specification of the `assign_l` loop on success: the column is
as long as the pair list, every entry is an abstain or one of the two class
votes, and a point outside the region always abstains. -/
theorem assign_lLoop_spec (region : Ellipse) (props accs : List ℚ)
    (hp : props.length = 2) :
    ∀ (pairs : List (Pt × ℕ)) (g : RngState) (col : List ℕ) (g2 : RngState),
      assign_lLoop region props accs pairs g = some (col, g2) →
      col.length = pairs.length ∧
      ∀ i, (col.getD i 0 = 0 ∨ col.getD i 0 = 1 ∨ col.getD i 0 = 2) ∧
        (region.containsNp (pairs.getD i ((0, 0), 0)).1 = false → col.getD i 0 = 0) := by
  intro pairs
  induction pairs with
  | nil =>
    intro g col g2 h
    rw [show assign_lLoop region props accs [] g = some ([], g) from rfl] at h
    injection h with h2
    cases h2
    exact ⟨rfl, fun i => ⟨Or.inl rfl, fun _ => rfl⟩⟩
  | cons xy rest ih =>
    obtain ⟨x, y⟩ := xy
    intro g col g2 h
    rw [assign_lLoop] at h
    split at h
    next => exact absurd h (by simp)
    next vg hstep =>
      split at h
      next => exact absurd h (by simp)
      next tg heq =>
        injection h with h2
        cases h2
        obtain ⟨hv, hv0⟩ := assign_lStep_spec region props accs hp x y g vg hstep
        obtain ⟨hl, hs⟩ := ih _ tg.1 tg.2 heq
        refine ⟨by simp [hl], ?_⟩
        intro i
        cases i with
        | zero => exact ⟨hv, fun hf => hv0 hf⟩
        | succ j =>
          rw [List.getD_cons_succ, List.getD_cons_succ]
          exact hs j

/-- Column-level specification of `assign_l` on success, phrased against the
point list: entries are abstains or class votes, and points outside the
region abstain. -/
theorem assign_l_spec (X : List Pt) (Y : List ℕ) (region : Ellipse)
    (props accs : List ℚ) (hp : props.length = 2) (g : RngState)
    (lg : List ℕ × RngState) (h : assign_l X Y region props accs g = some lg) :
    (∀ i, lg.1.getD i 0 = 0 ∨ lg.1.getD i 0 = 1 ∨ lg.1.getD i 0 = 2) ∧
    (∀ i, region.containsNp (X.getD i (0, 0)) = false → lg.1.getD i 0 = 0) := by
  unfold assign_l at h
  obtain ⟨hl, hs⟩ := assign_lLoop_spec region props accs hp (X.zip Y) g lg.1 lg.2 h
  refine ⟨fun i => (hs i).1, ?_⟩
  intro i hf
  by_cases hi : i < (X.zip Y).length
  · exact (hs i).2 (by rw [zip_getD_fst X Y i hi]; exact hf)
  · rw [List.getD_eq_default _ _ (by omega)]

/-- Entrywise effect of the unipolar masking: every entry is either kept or
zeroed, never changed to another vote. -/
theorem unipolarMask_getD (pol : ℕ) (l : List ℕ) (i : ℕ) :
    (unipolarMask pol l).getD i 0 = l.getD i 0 ∨ (unipolarMask pol l).getD i 0 = 0 := by
  unfold unipolarMask
  rw [List.getD_eq_getElem?_getD, List.getElem?_map, List.getD_eq_getElem?_getD]
  cases hl : l[i]? with
  | none => right; rfl
  | some v =>
    simp only [Option.map_some', Option.getD_some]
    by_cases hv : v ≠ pol
    · right; rw [if_pos hv]
    · left; rw [if_neg hv]

/-- Invariant carried through the LF loop: columns and regions are recorded
in lockstep, every recorded entry is in `{0, 1, 2}`, and a point outside the
region of a column abstains in that column. -/
def colsRegionsInv (X : List Pt) (cols : List (List ℕ)) (regions : List Ellipse) : Prop :=
  cols.length = regions.length ∧
  ∀ j i, ((cols.getD j []).getD i 0 = 0 ∨ (cols.getD j []).getD i 0 = 1 ∨
      (cols.getD j []).getD i 0 = 2) ∧
    ((regions.getD j ⟨0, 0, 0, 0⟩).containsNp (X.getD i (0, 0)) = false →
      (cols.getD j []).getD i 0 = 0)

/-- Appending one well-formed column/region pair preserves the invariant. -/
theorem colsRegionsInv_append (X : List Pt) (cols : List (List ℕ))
    (regions : List Ellipse) (col : List ℕ) (region : Ellipse)
    (h : colsRegionsInv X cols regions)
    (hcol01 : ∀ i, col.getD i 0 = 0 ∨ col.getD i 0 = 1 ∨ col.getD i 0 = 2)
    (hcol0 : ∀ i, region.containsNp (X.getD i (0, 0)) = false → col.getD i 0 = 0) :
    colsRegionsInv X (cols ++ [col]) (regions ++ [region]) := by
  obtain ⟨hlen, hjk⟩ := h
  refine ⟨by simp [hlen], ?_⟩
  intro j i
  rcases Nat.lt_trichotomy j cols.length with hj | hj | hj
  · rw [List.getD_append _ _ _ _ hj, List.getD_append _ _ _ _ (by rw [← hlen]; exact hj)]
    exact hjk j i
  · subst hj
    have e1 : (cols ++ [col]).getD cols.length [] = col := by
      rw [List.getD_eq_getElem?_getD, List.getElem?_append_right (Nat.le_refl _)]
      simp
    have e2 : (regions ++ [region]).getD cols.length ⟨0, 0, 0, 0⟩ = region := by
      rw [List.getD_eq_getElem?_getD, List.getElem?_append_right (le_of_eq hlen.symm)]
      rw [hlen]
      simp
    rw [e1, e2]
    exact ⟨hcol01 i, hcol0 i⟩
  · have h1 : (cols ++ [col]).length ≤ j := by simp; omega
    rw [List.getD_eq_default _ _ h1]
    exact ⟨Or.inl rfl, fun _ => rfl⟩

/-- The LF loop preserves `colsRegionsInv`. -/
theorem lfsLoop_inv (X : List Pt) (Y : List ℕ) (uni : Bool) (mr Mr ma Ma : ℚ) :
    ∀ (cnt : ℕ) (cols : List (List ℕ)) (regions : List Ellipse)
      (accsH propsH : List (List ℚ)) (g : RngState)
      (out : List (List ℕ) × List Ellipse × List (List ℚ) × List (List ℚ) × RngState),
      lfsLoop X Y uni mr Mr ma Ma cnt cols regions accsH propsH g = some out →
      colsRegionsInv X cols regions →
      colsRegionsInv X out.1 out.2.1 := by
  intro cnt
  induction cnt with
  | zero =>
    intro cols regions accsH propsH g out h hinv
    cases h
    exact hinv
  | succ c ih =>
    intro cols regions accsH propsH g out h hinv
    rw [lfsLoop] at h
    dsimp only at h
    split at h
    next => exact absurd h (by simp)
    next center _ =>
      cases uni with
      | false =>
        simp only [Bool.false_eq_true, if_false] at h
        split at h
        next => exact absurd h (by simp)
        next lg heq =>
          obtain ⟨hcol01, hcol0⟩ :=
            assign_l_spec X Y _ _ _ (npUniformVec_length ma Ma 2 _) _ lg heq
          exact ih _ _ _ _ _ _ h (colsRegionsInv_append X cols regions _ _ hinv hcol01 hcol0)
      | true =>
        simp only [eq_self_iff_true, if_true] at h
        split at h
        next => exact absurd h (by simp)
        next lg heq =>
          obtain ⟨hcol01, hcol0⟩ :=
            assign_l_spec X Y _ _ _ (npUniformVec_length ma Ma 2 _) _ lg heq
          refine ih _ _ _ _ _ _ h (colsRegionsInv_append X cols regions _ _ hinv ?_ ?_)
          · intro i
            rcases unipolarMask_getD (npRandint 1 3 lg.2).1 lg.1 i with hm | hm
            · rw [hm]; exact hcol01 i
            · rw [hm]; exact Or.inl rfl
          · intro i hf
            rcases unipolarMask_getD (npRandint 1 3 lg.2).1 lg.1 i with hm | hm
            · rw [hm]; exact hcol0 i hf
            · exact hm

/-- Entries of the transposed vote matrix in terms of the LF columns. -/
theorem matEntry_matTranspose (cols : List (List ℕ)) (n i j : ℕ) :
    matEntry (matTranspose cols n) i j = if i < n then (cols.getD j []).getD i 0 else 0 := by
  unfold matEntry matTranspose
  rw [List.getD_eq_getElem?_getD ((List.range n).map fun i => cols.map fun col => col.getD i 0) i,
    List.getElem?_map]
  by_cases hi : i < n
  · rw [List.getElem?_range hi]
    simp only [Option.map_some', Option.getD_some, if_pos hi]
    rw [List.getD_eq_getElem?_getD (cols.map fun col => col.getD i 0) j, List.getElem?_map,
      List.getD_eq_getElem?_getD cols j]
    cases hj : cols[j]? with
    | none => rfl
    | some col => rfl
  · rw [List.getElem?_eq_none (by simp; omega), if_neg hi]
    rfl

/-- Membership in a descending insertion. -/
theorem mem_insertDesc (a : ℚ × Pt) :
    ∀ (l : List (ℚ × Pt)) (z : ℚ × Pt), z ∈ insertDesc a l ↔ z = a ∨ z ∈ l := by
  intro l
  induction l with
  | nil => intro z; simp [insertDesc]
  | cons b t ih =>
    intro z
    unfold insertDesc
    by_cases hb : b.1 ≤ a.1
    · rw [if_pos hb]
      simp only [List.mem_cons]
    · rw [if_neg hb]
      simp only [List.mem_cons, ih]
      tauto

/-- Descending insertion preserves the descending pairwise order. -/
theorem pairwise_insertDesc (a : ℚ × Pt) :
    ∀ (l : List (ℚ × Pt)), List.Pairwise (fun u v => v.1 ≤ u.1) l →
      List.Pairwise (fun u v => v.1 ≤ u.1) (insertDesc a l) := by
  intro l
  induction l with
  | nil => intro _; simp [insertDesc]
  | cons b t ih =>
    intro hp
    rw [List.pairwise_cons] at hp
    obtain ⟨hb, ht⟩ := hp
    unfold insertDesc
    by_cases hba : b.1 ≤ a.1
    · rw [if_pos hba]
      refine List.Pairwise.cons ?_ (List.Pairwise.cons hb ht)
      intro z hz
      rcases List.mem_cons.mp hz with hz | hz
      · rw [hz]; exact hba
      · exact le_trans (hb z hz) hba
    · rw [if_neg hba]
      refine List.Pairwise.cons ?_ (ih ht)
      intro z hz
      rcases (mem_insertDesc a t z).mp hz with hz | hz
      · rw [hz]; exact le_of_lt (not_le.mp hba)
      · exact hb z hz

/-- The stable descending sort used by `rank_by_conflict` is sorted. -/
theorem pairwise_sortDesc :
    ∀ l : List (ℚ × Pt), List.Pairwise (fun u v => v.1 ≤ u.1) (sortDesc l) := by
  intro l
  induction l with
  | nil => simp [sortDesc]
  | cons a t ih => exact pairwise_insertDesc a (sortDesc t) ih

/-! ## Claims -/

/-- C1: the spec claims `Rectangle(b, t, l, r).contains((x, y))` holds iff
`l < x < r` and `b < y < t`.  The code instead tests the x coordinate
against the bottom/top edges and the y coordinate against the left/right
edges: on the valid rectangle `Rectangle(0, 1, 0, 10)` and the point
`(1/2, 5)` the code returns `True` although `y = 5` is far outside the
claimed vertical bounds `0 < y < 1`. -/
theorem C1_rectangle_contains_axes_swapped :
    Rectangle.valid ⟨0, 1, 0, 10⟩ ∧
    Rectangle.contains ⟨0, 1, 0, 10⟩ (1 / 2, 5) = true ∧
    Rectangle.claimContains ⟨0, 1, 0, 10⟩ (1 / 2, 5) = false :=
  ⟨⟨by decide, by decide⟩, by decide, by decide⟩

/-- C2 (amended): every slice assignment returned by `create_slices`
satisfies the acceptance test the code actually runs — `num_slices + 1`
distinct values and every value count, including the background count,
strictly greater than `min_slice_size`. -/
theorem C2_create_slices_acceptance (X : List Pt) (Y : List ℕ) (L : List (List ℕ))
    (src : SliceSource) (lfr : Option (List Ellipse)) (ns mss : ℕ)
    (mina maxa : ℚ) (fuel : ℕ) (g : RngState) (Z : List ℕ) (regions : List Ellipse)
    (h : create_slicesOut X Y L src lfr ns mss mina maxa fuel g = some (Z, regions)) :
    satisfiedCheck Z ns mss = true := by
  unfold create_slicesOut create_slices at h
  cases hr : create_slicesLoop X L src lfr ns mss mina maxa fuel
      (List.replicate X.length 0) [] g with
  | none => rw [hr] at h; exact absurd h (by simp)
  | some r =>
    rw [hr] at h
    simp only [Option.map_some'] at h
    injection h with h2
    cases h2
    exact create_slicesLoop_satisfied X L src lfr ns mss mina maxa fuel _ _ _ r hr

/-- Witness for C2: a concrete accepted run of `create_slices`. -/
theorem C2_create_slices_acceptance_witness : satisfiedCheck [1, 0] 1 0 = true :=
  C2_create_slices_acceptance [(0, 0), (0, 3)] [] [] SliceSource.random none 1 0 1 1 1
    (constState 0) [1, 0] [⟨0, 0, 1, 1⟩] (by decide)

/-- Counterexample for C2 as stated: the assignment `Z = [0, 0, 1]` with one
slice and `min_slice_size = 1` satisfies the claimed acceptance predicate
(both values present, the nonzero slice has `1 ≥ 1` members) but the code
rejects it, because the code requires every count to be strictly greater
than `min_slice_size`. -/
theorem C2_acceptance_mismatch :
    claimAcceptZ [0, 0, 1] 1 1 = true ∧ satisfiedCheck [0, 0, 1] 1 1 = false := by
  decide

/-- C3: on a run of `create_slices` whose first attempt is rejected, the
`regions` list is not reset, so the returned list pairs slice id `1` with
the region of the discarded first attempt.  Concretely: four points, one
slice, `min_slice_size = 1`; the first attempt centers the ellipse at
`(0, 3)` and covers one point only (rejected), the second centers it at
`(0, 0)` (accepted).  Point `0 = (0, 0)` ends with slice id `1`, but the
stored region at index `1 - 1 = 0` is the discarded ellipse around
`(0, 3)`, which does not contain it. -/
theorem C3_regions_survive_retry :
    create_slicesOut [(0, 0), (1 / 2, 0), (0, 3), (0, 4)] [] [] SliceSource.random
        none 1 1 1 1 2
        { pyStream := fun _ => 0, pyPos := 0
          npStream := fun i => if i = 0 then 1 / 2 else 0, npPos := 0
          torchStream := fun _ => 0, torchPos := 0 }
      = some ([1, 1, 0, 0], [⟨0, 3, 1, 1⟩, ⟨0, 0, 1, 1⟩]) ∧
    ([1, 1, 0, 0] : List ℕ).getD 0 0 = 1 ∧
    Ellipse.containsNp ⟨0, 3, 1, 1⟩ ((0 : ℚ), (0 : ℚ)) = false :=
  ⟨by decide, by decide, by decide⟩

/-- C4: the coverage vectors sampled by `create_lfs` do not depend on the
coverage range parameters at all — the source draws them from the accuracy
range.  With accuracy range `[9/10, 9/10]` the sampled coverage vector is
`[9/10, 9/10]` for every coverage range, and `9/10` lies outside the
coverage range `[0, 1/10]` of the failing input. -/
theorem C4_props_drawn_from_acc_range :
    (∀ mp Mp : ℚ,
      create_lfsProps [(0, 0)] [2] 1 false 1 1 (9 / 10) (9 / 10) mp Mp (constState 0)
        = some [[9 / 10, 9 / 10]]) ∧
    ¬ ((9 : ℚ) / 10 ≤ 1 / 10) :=
  ⟨fun _ _ => rfl, by decide⟩

/-- C6: `create_labels` returns one label per point; a point contained in at
least one cluster ellipse ends with label `1` (last write wins, and every
write is `1`), and a point contained in none keeps the background default
`k`.  In particular every label is in `{1, k}`. -/
theorem C6_create_labels_values (X : List Pt) (k : ℕ) (nc : ℕ) (mina maxa : ℚ)
    (g : RngState) (Y : List ℕ) (regions : List Ellipse)
    (h : create_labelsOut X k nc mina maxa g = some (Y, regions)) :
    Y.length = X.length ∧
    ∀ i, i < X.length →
      Y.getD i 0 = if regions.any (fun e => e.containsNp (X.getD i (0, 0))) then 1 else k := by
  unfold create_labelsOut create_labels at h
  cases hr : labelClustersLoop X mina maxa nc (List.replicate X.length k) [] g with
  | none => rw [hr] at h; exact absurd h (by simp)
  | some r =>
    rw [hr] at h
    simp only [Option.map_some'] at h
    injection h with h2
    cases h2
    refine labelClustersLoop_inv X k mina maxa nc (List.replicate X.length k) [] g r hr
      (by simp) ?_
    intro i hi
    rw [List.getD_eq_getElem?_getD, List.getElem?_replicate, if_pos hi]
    simp

/-- Witness for C6: a concrete run of `create_labels` with two points and
one cluster around the first point, giving labels `[1, 2]`. -/
theorem C6_create_labels_values_witness :
    ([1, 2] : List ℕ).length = ([((0 : ℚ), (0 : ℚ)), (0, 3)] : List Pt).length ∧
    ∀ i, i < ([((0 : ℚ), (0 : ℚ)), (0, 3)] : List Pt).length →
      ([1, 2] : List ℕ).getD i 0
        = if ([(⟨0, 0, 1, 1⟩ : Ellipse)]).any
            (fun e => e.containsNp (([((0 : ℚ), (0 : ℚ)), (0, 3)] : List Pt).getD i (0, 0)))
          then 1 else 2 :=
  C6_create_labels_values [(0, 0), (0, 3)] 2 1 1 1 (constState 0) [1, 2] [⟨0, 0, 1, 1⟩]
    (by decide)

/-- C5: every entry of a vote matrix returned by `create_lfs` is `0`
(abstain), `1` or `2`; a point outside the circle of labeling function `j`
always has a `0` in column `j`; and the unipolar masking can only keep an
entry or force it to `0`, never change it to another vote. -/
theorem C5_vote_matrix_entries (X : List Pt) (Y : List ℕ) (m : ℕ) (uni : Bool)
    (mr Mr ma Ma mp Mp : ℚ) (g : RngState) (L : List (List ℕ)) (regions : List Ellipse)
    (h : create_lfsOut X Y m uni mr Mr ma Ma mp Mp g = some (L, regions)) :
    (∀ i j, matEntry L i j = 0 ∨ matEntry L i j = 1 ∨ matEntry L i j = 2) ∧
    (∀ i j, (regions.getD j ⟨0, 0, 0, 0⟩).containsNp (X.getD i (0, 0)) = false →
      matEntry L i j = 0) ∧
    (∀ pol l i, (unipolarMask pol l).getD i 0 = l.getD i 0 ∨ (unipolarMask pol l).getD i 0 = 0) := by
  unfold create_lfsOut create_lfs at h
  split at h
  next => exact absurd h (by simp)
  next r hr =>
    split at h
    next => exact absurd h (by simp)
    next =>
      simp only [Option.map_some'] at h
      injection h with h2
      cases h2
      obtain ⟨hlen, hjk⟩ := lfsLoop_inv X Y uni mr Mr ma Ma m [] [] [] [] g r hr
        ⟨rfl, fun j i => ⟨Or.inl rfl, fun _ => rfl⟩⟩
      refine ⟨?_, ?_, fun pol l i => unipolarMask_getD pol l i⟩
      · intro i j
        rw [matEntry_matTranspose]
        by_cases hi : i < X.length
        · rw [if_pos hi]; exact (hjk j i).1
        · rw [if_neg hi]; exact Or.inl rfl
      · intro i j hf
        rw [matEntry_matTranspose]
        by_cases hi : i < X.length
        · rw [if_pos hi]; exact (hjk j i).2 hf
        · rw [if_neg hi]

/-- Witness for C5: a concrete run with one point and one LF whose circle
contains the point, producing the vote matrix `[[2]]`. -/
theorem C5_vote_matrix_entries_witness :
    (∀ i j, matEntry [[2]] i j = 0 ∨ matEntry [[2]] i j = 1 ∨ matEntry [[2]] i j = 2) ∧
    (∀ i j, (([⟨0, 0, 1, 1⟩] : List Ellipse).getD j ⟨0, 0, 0, 0⟩).containsNp
        (([((0 : ℚ), (0 : ℚ))] : List Pt).getD i (0, 0)) = false → matEntry [[2]] i j = 0) ∧
    (∀ pol l i, (unipolarMask pol l).getD i 0 = l.getD i 0 ∨ (unipolarMask pol l).getD i 0 = 0) :=
  C5_vote_matrix_entries [(0, 0)] [2] 1 false 1 1 (9 / 10) (9 / 10) 0 (1 / 10) (constState 0)
    [[2]] [⟨0, 0, 1, 1⟩] (by decide)

/-- C7 (amended): for every nonzero seed — the only seeds the code actually
applies, see C9 — two runs of `generate_dataset` with the same seed and
identical parameters return identical results, whatever the ambient
generator states were: the three generators are reseeded as a function of
the seed alone and all randomness flows through them. -/
theorem C7_determinism_for_truthy_seed (s : ℤ) (hs : s ≠ 0) (k m n : ℕ)
    (Lk : LKwargs) (Xr : Bool) (Yk : YKwargs) (Zk : ZKwargs) (uni : Bool)
    (src : SliceSource) (fuel : ℕ) (g1 g2 : RngState) :
    generate_dataset k m n Lk Xr Yk Zk uni src (some s) fuel g1
      = generate_dataset k m n Lk Xr Yk Zk uni src (some s) fuel g2 := by
  have ha : ∀ g : RngState, applySeed (some s) g = seedAll s := by
    intro g
    unfold applySeed truthySeed
    rw [if_pos (by simp [hs])]
    rfl
  unfold generate_dataset
  rw [ha g1, ha g2]

/-- Witness for C7: the amended determinism at seed `1` and two different
ambient states. -/
theorem C7_determinism_for_truthy_seed_witness :
    generate_dataset 2 1 2 ⟨1, 1, 1, 1, 1, 1⟩ false ⟨1, 1, 1⟩ ⟨1, 0, 2, 2⟩ false
        SliceSource.lfs (some 1) 1 (constState 0)
      = generate_dataset 2 1 2 ⟨1, 1, 1, 1, 1, 1⟩ false ⟨1, 1, 1⟩ ⟨1, 0, 2, 2⟩ false
        SliceSource.lfs (some 1) 1 (constState (1 / 2)) :=
  C7_determinism_for_truthy_seed 1 (by decide) 2 1 2 ⟨1, 1, 1, 1, 1, 1⟩ false ⟨1, 1, 1⟩
    ⟨1, 0, 2, 2⟩ false SliceSource.lfs 1 (constState 0) (constState (1 / 2))

/-- Counterexample for C7 as stated (for every seed): with `seed = 0` the
`if seed:` guard skips seeding entirely, so the run depends on the ambient
generator state: two seed-`0` runs with identical parameters return
different label, vote and slice arrays. -/
theorem C7_seed_zero_not_deterministic :
    generate_datasetLYZ 2 1 2 ⟨1, 1, 1, 1, 1, 1⟩ false ⟨1, 1, 1⟩ ⟨1, 0, 2, 2⟩ false
        SliceSource.lfs (some 0) 1 (constState 0)
      ≠ generate_datasetLYZ 2 1 2 ⟨1, 1, 1, 1, 1, 1⟩ false ⟨1, 1, 1⟩ ⟨1, 0, 2, 2⟩ false
        SliceSource.lfs (some 0) 1 (constState (1 / 2)) := by
  decide

/-- C8: `rank_by_conflict` returns its scored points in descending score
order, and on the two-point example of the spec the point with votes
`[1, 2, 1, 2]` scores `2.04 = 51/25` and is ranked above the point with
votes `[1, 1, 1, 1]`, which scores `0.04 = 1/25`. -/
theorem C8_rank_by_conflict_sorted :
    (∀ (X : List Pt) (L : List (List ℕ)) (res : List (ℚ × Pt)),
      rank_by_conflict X L = some res → List.Pairwise (fun u v => v.1 ≤ u.1) res) ∧
    rank_by_conflict [(0, 0), (3, 3)] [[1, 2, 1, 2], [1, 1, 1, 1]]
      = some [(51 / 25, (0, 0)), (1 / 25, (3, 3))] := by
  constructor
  · intro X L res h
    unfold rank_by_conflict at h
    split at h
    · split at h
      next => exact absurd h (by simp)
      next scored _ =>
        injection h with h2
        cases h2
        exact pairwise_sortDesc scored
    · exact absurd h (by simp)
  · decide

/-- Witness for C8: the sortedness of the concrete ranking, obtained by
applying the theorem to its own concrete run. -/
theorem C8_rank_by_conflict_sorted_witness :
    List.Pairwise (fun u v : ℚ × Pt => v.1 ≤ u.1)
      [(51 / 25, ((0 : ℚ), (0 : ℚ))), (1 / 25, (3, 3))] :=
  C8_rank_by_conflict_sorted.1 [(0, 0), (3, 3)] [[1, 2, 1, 2], [1, 1, 1, 1]]
    [(51 / 25, (0, 0)), (1 / 25, (3, 3))] C8_rank_by_conflict_sorted.2

/-- C9: `generate_dataset` seeds the generators only when `if seed:` holds;
`seed = 0` is falsy exactly like `seed = None`, so a seed-`0` run leaves the
ambient generator state untouched and behaves, state for state, exactly as
an unseeded run. -/
theorem C9_seed_zero_behaves_unseeded :
    (∀ g : RngState, applySeed (some 0) g = g) ∧
    (∀ g : RngState, applySeed none g = g) ∧
    (∀ (k m n : ℕ) (Lk : LKwargs) (Xr : Bool) (Yk : YKwargs) (Zk : ZKwargs)
      (uni : Bool) (src : SliceSource) (fuel : ℕ) (g : RngState),
      generate_dataset k m n Lk Xr Yk Zk uni src (some 0) fuel g
        = generate_dataset k m n Lk Xr Yk Zk uni src none fuel g) :=
  ⟨fun _ => rfl, fun _ => rfl, fun _ _ _ _ _ _ _ _ _ _ _ => rfl⟩

/-- C10: the `Ellipse` constructor stores arbitrary parameters unvalidated;
`contains` on plain scalars raises a division-by-zero error (modelled as
`none`) whenever a semi-axis is zero; negative semi-axes behave exactly as
their absolute values since only their squares are read; and `Circle(h, k, r)`
is definitionally the ellipse with both semi-axes equal to `r`. -/
theorem C10_ellipse_circle_unvalidated (h k a b r : ℚ) (p : Pt) :
    Ellipse.contains ⟨h, k, 0, b⟩ p = none ∧
    Ellipse.contains ⟨h, k, a, 0⟩ p = none ∧
    Ellipse.contains ⟨h, k, a, b⟩ p = Ellipse.contains ⟨h, k, |a|, |b|⟩ p ∧
    Circle h k r = (⟨h, k, r, r⟩ : Ellipse) := by
  refine ⟨by simp [Ellipse.contains], by simp [Ellipse.contains], ?_, rfl⟩
  by_cases ha : a = 0
  · simp [Ellipse.contains, ha]
  · by_cases hb : b = 0
    · simp [Ellipse.contains, ha, hb]
    · simp [Ellipse.contains, ha, hb, sq_abs]

end GeoSynth
